import Mathlib

/-!
Shallow embedding of the certimint-validate verification engine
(src/src/validate.ts, class CertiMintValidation) together with the data
model it operates on.  JavaScript objects with string keys are embedded as
association lists in insertion order; `undefined`-able fields become
`Option`; thrown exceptions become `Except VError`; every network request
issued by a function is collected in a `List Req` trace returned next to
the result.  The external collaborators (the Ethereum provider, the
Bitcoin block-explorer HTTP API, the js-sha3 `sha3_512` digest and the
merkle-tools SHA3-512 combine function) are parameters of the model.
-/

namespace CertiMint

/-- SealStatus enum from validate.ts. -/
inductive SealStatus
  | confirmed
  | failed
  | pending
deriving DecidableEq

/-- DataType enum from validate.ts. -/
inductive DataType
  | STRING
  | FILE
  | HASH
deriving DecidableEq

/-- One step of a Merkle inclusion proof (IProof): exactly one of a left
or a right sibling, as the spec's ProofPath demands. -/
inductive ProofStep
  | left (sibling : String)
  | right (sibling : String)
deriving DecidableEq

/-- IAnchor from validate.ts (used for both Ethereum and Bitcoin anchors).
The mutable `exists` annotation is kept as an optional field. -/
structure IAnchor where
  transactionId : String
  nodeUrl : String
  explorer : String
  merkleRoot : String
  proof : List ProofStep
  existsFlag : Option Bool := none
deriving DecidableEq

/-- ISignInvite from validate.ts: one invitee's proof and hash. -/
structure ISignInvite where
  proof : List ProofStep
  hash : String
deriving DecidableEq

/-- IInviteAnchor from validate.ts (IAnchor extended with the nested
invitee map and a cached transaction status). -/
structure IInviteAnchor where
  transactionId : String
  nodeUrl : String
  explorer : String
  merkleRoot : String
  proof : List ProofStep
  existsFlag : Option Bool := none
  invites : Option (List (String × ISignInvite)) := none
  transactionStatus : Option SealStatus := none
deriving DecidableEq

/-- One entry of ISignatures.ethereum from validate.ts. -/
structure ISignature where
  transactionId : String
  nodeUrl : String
  explorer : String
  signature : String
  signed : String
  transactionStatus : Option SealStatus := none
deriving DecidableEq

/-- ISignatures: protocol key to address-keyed entries, in object key
(insertion) order. -/
abbrev SigMap : Type := List (String × List (String × ISignature))

/-- IAnchors of IAnchor: protocol key to network-keyed anchors. -/
abbrev AnchorMap : Type := List (String × List (String × IAnchor))

/-- IAnchors of IInviteAnchor, as used inside ISignInvites. -/
abbrev InviteAnchorMap : Type := List (String × List (String × IInviteAnchor))

/-- ISignInvites from validate.ts. -/
structure ISignInvites where
  anchors : InviteAnchorMap
deriving DecidableEq

/-- ISeal from validate.ts. -/
structure ISeal where
  id : String
  dataHash : String
  anchors : AnchorMap
  signatures : Option SigMap := none
  signinvites : Option ISignInvites := none
  sealedAt : String
deriving DecidableEq

/-- IConfig from validate.ts, flattened. -/
structure Config where
  bitcoinUrl : Option String := none
  bitcoinApiKey : Option String := none
  ethereumApiKey : Option String := none

/-- An Ethereum transaction as seen through the provider: only its data
payload is inspected by validate.ts. -/
structure EthTx where
  data : String
deriving DecidableEq

/-- One output of a Bitcoin transaction as returned by the explorer API;
`data_hex` is absent (undefined/null) or a hex string. -/
structure BtcOutput where
  dataHex : Option String
deriving DecidableEq

/-- The body of a successful explorer response. -/
structure BtcTx where
  outputs : List BtcOutput
deriving DecidableEq

/-- Outcome of the axios GET: a parsed transaction, or a thrown error
carrying `error.response.status` when the response object is defined. -/
inductive BtcResult
  | ok (tx : BtcTx)
  | err (status : Option Nat)
deriving DecidableEq

/-- The two external transaction-lookup collaborators. -/
structure Oracle where
  ethTx : String → Option EthTx
  btcGet : String → BtcResult

/-- Errors thrown by the validation code. -/
inductive VError
  | invalidInput
  | unsupportedProtocol (p : String)
  | merkleRootUndefined
  | rateLimited
  | network (status : Option Nat)
deriving DecidableEq

/-- A network request issued during validation. -/
inductive Req
  | eth (txId : String)
  | btc (url : String)
deriving DecidableEq

/-- isHexPrefixed from validate.ts: substring(0,2) === 0x. -/
def isHexPfx (v : String) : Bool := v.take 2 == "0x"

/-- addHexPrefix from validate.ts. -/
def addHexPfx (v : String) : String := if isHexPfx v then v else "0x" ++ v

/-- JavaScript String.prototype.toLowerCase as used on hex digests. -/
def toLowerCase (s : String) : String := String.mk (s.data.map Char.toLower)

/-- JavaScript regexp containment test url.match(something). -/
def strContains (hay needle : String) : Bool :=
  (List.range (hay.data.length + 1)).any fun i => needle.data.isPrefixOf (hay.data.drop i)

/-- First-match association lookup with a default, modelling obj[key] with
a fallback. -/
def lookupD {α : Type} (l : List (String × α)) (k : String) (d : α) : α :=
  match l.find? (fun kv => kv.1 == k) with
  | some kv => kv.2
  | none => d

/-- Modelled from the spec: the merkle-tools SHA3-512 proof replay
(validateProof of the external merkle-tools package, whose source is not
part of this repository).  The accumulator starts at the leaf; a left step
hashes sibling ++ acc, a right step hashes acc ++ sibling. -/
def merkleAcc (h : String → String) : List ProofStep → String → String
  | [], acc => acc
  | ProofStep.left s :: rest, acc => merkleAcc h rest (h (s ++ acc))
  | ProofStep.right s :: rest, acc => merkleAcc h rest (h (acc ++ s))

/-- Modelled from the spec: validateProof replays the proof from the leaf
and accepts iff the accumulator equals the claimed root (exact string
equality); an empty proof is valid iff leaf equals root. -/
def validateProof (h : String → String) (proof : List ProofStep) (leaf root : String) : Bool :=
  merkleAcc h proof leaf == root

/-- hashForData from validate.ts, restricted to string data: FILE input
that is not a stream or blob throws, STRING hashes with sha3_512, HASH
returns the input unchanged. -/
def hashForData (sha3 : String → String) (data : String) (dt : DataType) : Except VError String :=
  match dt with
  | DataType.FILE => Except.error VError.invalidInput
  | DataType.STRING => Except.ok (sha3 data)
  | DataType.HASH => Except.ok data

/-- buildTxUrl from validate.ts, with the default blockcypher base url of
validateBitcoinAnchor folded in. -/
def buildTxUrl (cfg : Config) (txId : String) : String :=
  (cfg.bitcoinUrl.getD "https://api.blockcypher.com/v1/btc/main") ++ "/txs/" ++ txId ++
    (match cfg.bitcoinApiKey with
     | some k => "?token=" ++ k
     | none => "")

/-- The body of the for-loop of validateEthereumAnchor, over the entries
of anchors.ethereum.  A nodeUrl matching mintnet returns true for the
whole function; a transaction that is not found returns false for the
whole function; otherwise the entry's verdict is accumulated with AND. -/
def ethAnchorLoop (o : Oracle) (mh : String → String) (dataHash : String) :
    Bool → List (String × IAnchor) → List Req × Bool
  | isValid, [] => ([], isValid)
  | isValid, (_, anchor) :: rest =>
    if strContains anchor.nodeUrl "mintnet" then ([], true)
    else
      let txid := addHexPfx anchor.transactionId
      match o.ethTx txid with
      | none => ([Req.eth txid], false)
      | some tx =>
        let anchorExists := tx.data == addHexPfx anchor.merkleRoot
        let validProofB := validateProof mh anchor.proof dataHash anchor.merkleRoot
        let next := ethAnchorLoop o mh dataHash (isValid && anchorExists && validProofB) rest
        (Req.eth txid :: next.1, next.2)

/-- validateEthereumAnchor from validate.ts. -/
def validateEthereumAnchor (o : Oracle) (mh : String → String) (anchors : AnchorMap)
    (dataHash : String) : List Req × Bool :=
  ethAnchorLoop o mh dataHash true (lookupD anchors "ethereum" [])

/-- The body of the for-loop of validateBitcoinAnchor, over the entries of
anchors.bitcoin.  The commitment is taken as the last output carrying a
data_hex payload; a falsy (missing or empty) commitment throws, a 429
explorer response throws rateLimited, any other explorer error is
rethrown. -/
def btcAnchorLoop (o : Oracle) (cfg : Config) (mh : String → String) (dataHash : String) :
    Bool → List (String × IAnchor) → List Req × Except VError Bool
  | isValid, [] => ([], Except.ok isValid)
  | isValid, (_, anchor) :: rest =>
    let url := buildTxUrl cfg anchor.transactionId
    match o.btcGet url with
    | BtcResult.err status =>
      if status == some 429 then ([Req.btc url], Except.error VError.rateLimited)
      else ([Req.btc url], Except.error (VError.network status))
    | BtcResult.ok tx =>
      let mr := tx.outputs.foldl
        (fun acc out => match out.dataHex with
          | some d => some d
          | none => acc) (none : Option String)
      match mr with
      | none => ([Req.btc url], Except.error VError.merkleRootUndefined)
      | some m =>
        if m == "" then ([Req.btc url], Except.error VError.merkleRootUndefined)
        else
          let anchorExists := m == anchor.merkleRoot
          let validProofB := validateProof mh anchor.proof dataHash anchor.merkleRoot
          let next := btcAnchorLoop o cfg mh dataHash (isValid && anchorExists && validProofB) rest
          (Req.btc url :: next.1, next.2)

/-- validateBitcoinAnchor from validate.ts. -/
def validateBitcoinAnchor (o : Oracle) (cfg : Config) (mh : String → String)
    (anchors : AnchorMap) (dataHash : String) : List Req × Except VError Bool :=
  btcAnchorLoop o cfg mh dataHash true (lookupD anchors "bitcoin" [])

/-- The protocol loop of validateAnchors: isValid && await validate...
short-circuits, so a protocol validator is only invoked while isValid is
still true; an unknown protocol key throws. -/
def anchorsLoop (o : Oracle) (cfg : Config) (mh : String → String) (anchors : AnchorMap)
    (dataHash : String) : Bool → List String → List Req × Except VError Bool
  | isValid, [] => ([], Except.ok isValid)
  | isValid, p :: rest =>
    if p == "ethereum" then
      if isValid then
        let e := validateEthereumAnchor o mh anchors dataHash
        let next := anchorsLoop o cfg mh anchors dataHash e.2 rest
        (e.1 ++ next.1, next.2)
      else anchorsLoop o cfg mh anchors dataHash false rest
    else if p == "bitcoin" then
      if isValid then
        match validateBitcoinAnchor o cfg mh anchors dataHash with
        | (r, Except.error e) => (r, Except.error e)
        | (r, Except.ok b) =>
          let next := anchorsLoop o cfg mh anchors dataHash b rest
          (r ++ next.1, next.2)
      else anchorsLoop o cfg mh anchors dataHash false rest
    else ([], Except.error (VError.unsupportedProtocol p))

/-- validateAnchors from validate.ts. -/
def validateAnchors (o : Oracle) (cfg : Config) (mh : String → String) (anchors : AnchorMap)
    (dataHash : String) : List Req × Except VError Bool :=
  anchorsLoop o cfg mh anchors dataHash true (anchors.map Prod.fst)

/-- Outcome of one iteration of a reconciler loop: an early return of the
whole function, or continuation with the updated accumulator. -/
inductive LoopRes
  | ret (s : SealStatus)
  | cont (acc : SealStatus)
deriving DecidableEq

/-- The network request issued for one signature entry. -/
def sigEntryReq (e : ISignature) : Req := Req.eth (addHexPfx e.transactionId)

/-- One iteration of the validateSignatures entry loop: found with
matching payload keeps the accumulator, a mismatch returns FAILED, not
found with a cached PENDING status sets the accumulator to PENDING, not
found otherwise returns FAILED. -/
def sigEntryRes (o : Oracle) (acc : SealStatus) (e : ISignature) : LoopRes :=
  match o.ethTx (addHexPfx e.transactionId) with
  | some tx =>
    if tx.data == addHexPfx e.signature then
      LoopRes.cont (if acc == SealStatus.confirmed then SealStatus.confirmed else acc)
    else LoopRes.ret SealStatus.failed
  | none =>
    if e.transactionStatus == some SealStatus.pending then LoopRes.cont SealStatus.pending
    else LoopRes.ret SealStatus.failed

/-- The address loop of validateSignatures over one protocol's entries. -/
def sigEntriesLoop (o : Oracle) : SealStatus → List (String × ISignature) → List Req × LoopRes
  | acc, [] => ([], LoopRes.cont acc)
  | acc, (_, e) :: rest =>
    match sigEntryRes o acc e with
    | LoopRes.ret s => ([sigEntryReq e], LoopRes.ret s)
    | LoopRes.cont acc2 =>
      let next := sigEntriesLoop o acc2 rest
      (sigEntryReq e :: next.1, next.2)

/-- The protocol loop of validateSignatures: only the ethereum key is
processed, every other protocol key is skipped. -/
def sigProtocolsLoop (o : Oracle) : SealStatus → SigMap → List Req × LoopRes
  | acc, [] => ([], LoopRes.cont acc)
  | acc, (p, entries) :: rest =>
    if p == "ethereum" then
      match sigEntriesLoop o acc entries with
      | (r, LoopRes.ret s) => (r, LoopRes.ret s)
      | (r, LoopRes.cont acc2) =>
        let next := sigProtocolsLoop o acc2 rest
        (r ++ next.1, next.2)
    else sigProtocolsLoop o acc rest

/-- validateSignatures from validate.ts. -/
def validateSignatures (o : Oracle) (sigs : SigMap) : List Req × SealStatus :=
  match sigProtocolsLoop o SealStatus.confirmed sigs with
  | (r, LoopRes.ret s) => (r, s)
  | (r, LoopRes.cont acc) => (r, acc)

/-- The invitee loop of validateSignInvites: validProof is overwritten on
every iteration, so only the last invitee's verdict survives. -/
def invitesFold (mh : String → String) (sv : IInviteAnchor) : Bool :=
  (sv.invites.getD []).foldl
    (fun _vp ke => validateProof mh ke.2.proof ke.2.hash sv.merkleRoot) true

/-- The network request issued for one sign-invite entry. -/
def invEntryReq (sv : IInviteAnchor) : Req := Req.eth (addHexPfx sv.transactionId)

/-- One iteration of the validateSignInvites entry loop. -/
def invEntryRes (o : Oracle) (mh : String → String) (acc : SealStatus) (sv : IInviteAnchor) :
    LoopRes :=
  match o.ethTx (addHexPfx sv.transactionId) with
  | some tx =>
    let svExists := tx.data == addHexPfx sv.merkleRoot
    let acc2 := if acc == SealStatus.confirmed then SealStatus.confirmed else acc
    let validProofB := invitesFold mh sv
    if !validProofB || !svExists then LoopRes.ret SealStatus.failed
    else LoopRes.cont acc2
  | none =>
    if sv.transactionStatus == some SealStatus.pending then LoopRes.cont SealStatus.pending
    else LoopRes.ret SealStatus.failed

/-- The chainId loop of validateSignInvites over one protocol's entries. -/
def invEntriesLoop (o : Oracle) (mh : String → String) :
    SealStatus → List (String × IInviteAnchor) → List Req × LoopRes
  | acc, [] => ([], LoopRes.cont acc)
  | acc, (_, sv) :: rest =>
    match invEntryRes o mh acc sv with
    | LoopRes.ret s => ([invEntryReq sv], LoopRes.ret s)
    | LoopRes.cont acc2 =>
      let next := invEntriesLoop o mh acc2 rest
      (invEntryReq sv :: next.1, next.2)

/-- The protocol loop of validateSignInvites. -/
def invProtocolsLoop (o : Oracle) (mh : String → String) :
    SealStatus → InviteAnchorMap → List Req × LoopRes
  | acc, [] => ([], LoopRes.cont acc)
  | acc, (p, entries) :: rest =>
    if p == "ethereum" then
      match invEntriesLoop o mh acc entries with
      | (r, LoopRes.ret s) => (r, LoopRes.ret s)
      | (r, LoopRes.cont acc2) =>
        let next := invProtocolsLoop o mh acc2 rest
        (r ++ next.1, next.2)
    else invProtocolsLoop o mh acc rest

/-- validateSignInvites from validate.ts. -/
def validateSignInvites (o : Oracle) (mh : String → String) (si : ISignInvites) :
    List Req × SealStatus :=
  match invProtocolsLoop o mh SealStatus.confirmed si.anchors with
  | (r, LoopRes.ret s) => (r, s)
  | (r, LoopRes.cont acc) => (r, acc)

/-- validateSeal from validate.ts: anchors first, then signatures (absent
set is vacuously CONFIRMED), then sign-invites, then the tri-state
combination. -/
def validateSeal (o : Oracle) (cfg : Config) (mh : String → String) (sl : ISeal) :
    List Req × Except VError SealStatus :=
  let va := validateAnchors o cfg mh sl.anchors sl.dataHash
  match va.2 with
  | Except.error e => (va.1, Except.error e)
  | Except.ok validAnchors =>
    let vs := match sl.signatures with
      | some s => validateSignatures o s
      | none => ([], SealStatus.confirmed)
    let vi := match sl.signinvites with
      | some si => validateSignInvites o mh si
      | none => ([], SealStatus.confirmed)
    (va.1 ++ vs.1 ++ vi.1,
     Except.ok
       (if vs.2 == SealStatus.failed || vi.2 == SealStatus.failed || !validAnchors then
          SealStatus.failed
        else if vs.2 == SealStatus.pending || vi.2 == SealStatus.pending then
          SealStatus.pending
        else SealStatus.confirmed))

/-- validateSealAndData from validate.ts: the digest is computed first,
then validateSeal runs in full, and only then are the two digests
compared, lowercased on both sides. -/
def validateSealAndData (o : Oracle) (cfg : Config) (mh sha3 : String → String)
    (sl : ISeal) (data : String) (dt : DataType) : List Req × Except VError SealStatus :=
  match hashForData sha3 data dt with
  | Except.error e => ([], Except.error e)
  | Except.ok hash =>
    let v := validateSeal o cfg mh sl
    match v.2 with
    | Except.error e => (v.1, Except.error e)
    | Except.ok status =>
      (v.1, Except.ok (if toLowerCase hash == toLowerCase sl.dataHash then status
                       else SealStatus.failed))

/-- The per-entry update of resolveSignatures: the cached status becomes
CONFIRMED exactly when the transaction is found with matching payload. -/
def resolveSigEntry (o : Oracle) (e : ISignature) : ISignature :=
  match o.ethTx (addHexPfx e.transactionId) with
  | some tx =>
    if tx.data == addHexPfx e.signature then
      { e with transactionStatus := some SealStatus.confirmed }
    else e
  | none => e

/-- resolveSignatures from validate.ts. -/
def resolveSignatures (o : Oracle) : Option SigMap → Option SigMap
  | none => none
  | some sigs =>
    some (sigs.map fun pe =>
      if pe.1 == "ethereum" then (pe.1, pe.2.map fun ke => (ke.1, resolveSigEntry o ke.2))
      else pe)

/-- The per-entry update of resolveSignInvites. -/
def resolveInvEntry (o : Oracle) (sv : IInviteAnchor) : IInviteAnchor :=
  match o.ethTx (addHexPfx sv.transactionId) with
  | some tx =>
    if tx.data == addHexPfx sv.merkleRoot then
      { sv with transactionStatus := some SealStatus.confirmed }
    else sv
  | none => sv

/-- resolveSignInvites from validate.ts. -/
def resolveSignInvites (o : Oracle) (si : ISignInvites) : ISignInvites :=
  ISignInvites.mk (si.anchors.map fun pe =>
    if pe.1 == "ethereum" then (pe.1, pe.2.map fun ke => (ke.1, resolveInvEntry o ke.2))
    else pe)

/-- updateSeal from validate.ts. -/
def updateSeal (o : Oracle) (sl : ISeal) : ISeal :=
  { sl with
    signatures := resolveSignatures o sl.signatures,
    signinvites := match sl.signinvites with
      | some si => some (resolveSignInvites o si)
      | none => none }

instance {ε α : Type} [DecidableEq ε] [DecidableEq α] : DecidableEq (Except ε α) := fun a b =>
  match a, b with
  | Except.ok x, Except.ok y =>
    if h : x = y then isTrue (by rw [h]) else isFalse (by intro hc; cases hc; exact h rfl)
  | Except.error x, Except.error y =>
    if h : x = y then isTrue (by rw [h]) else isFalse (by intro hc; cases hc; exact h rfl)
  | Except.ok _, Except.error _ => isFalse (by intro hc; cases hc)
  | Except.error _, Except.ok _ => isFalse (by intro hc; cases hc)

/-- A concrete injective hash function used to instantiate the Merkle
verifier on closed inputs. -/
def demoHash (s : String) : String := "#" ++ s

/-- The status combination stated by the spec for validateSeal. -/
def statusCombine (b : Bool) (s1 s2 : SealStatus) : SealStatus :=
  if !b || s1 == SealStatus.failed || s2 == SealStatus.failed then SealStatus.failed
  else if s1 == SealStatus.pending || s2 == SealStatus.pending then SealStatus.pending
  else SealStatus.confirmed

/-- The signatures reconciliation verdict of validateSeal, CONFIRMED for
an absent set. -/
def sigStatusOf (o : Oracle) : Option SigMap → SealStatus
  | none => SealStatus.confirmed
  | some s => (validateSignatures o s).2

/-- The sign-invites reconciliation verdict of validateSeal, CONFIRMED
for an absent set. -/
def invStatusOf (o : Oracle) (mh : String → String) : Option ISignInvites → SealStatus
  | none => SealStatus.confirmed
  | some si => (validateSignInvites o mh si).2

/-- An oracle on which every lookup misses: the Ethereum provider returns
null and the explorer GET throws without a response object. -/
def oracleNone : Oracle :=
  { ethTx := fun _ => none, btcGet := fun _ => BtcResult.err none }

/-- The empty configuration. -/
def cfg0 : Config := {}

/-- The identity as a placeholder hash function for runs in which no hash
is ever applied. -/
def idHash (s : String) : String := s

/-- A concrete Ethereum anchor fixture. -/
def anchorC2 : IAnchor :=
  { transactionId := "t1", nodeUrl := "wss://node.example", explorer := "",
    merkleRoot := "r1", proof := [] }

/-- A seal with a single Ethereum anchor and no signatures or invites. -/
def sealC2 : ISeal :=
  { id := "s", dataHash := "aa", anchors := [("ethereum", [("1", anchorC2)])],
    signatures := none, signinvites := none, sealedAt := "t" }

/-- A seal with no anchors at all and no signatures or invites. -/
def sealC3 : ISeal :=
  { id := "s", dataHash := "aa", anchors := [], signatures := none,
    signinvites := none, sealedAt := "t" }

/-- An anchor on a live node whose on-chain payload will not match. -/
def anchorC4a : IAnchor :=
  { transactionId := "t1", nodeUrl := "wss://node.example", explorer := "",
    merkleRoot := "r1", proof := [] }

/-- An anchor whose nodeUrl names the retired mintnet network. -/
def anchorC4b : IAnchor :=
  { transactionId := "t2", nodeUrl := "wss://mintnet.example", explorer := "",
    merkleRoot := "r2", proof := [] }

/-- Two Ethereum network entries: a failing one before a mintnet one. -/
def anchorsC4 : AnchorMap := [("ethereum", [("1", anchorC4a), ("2", anchorC4b)])]

/-- An oracle finding transaction 0xt1 with a payload that matches no
anchor. -/
def oracleC4 : Oracle :=
  { ethTx := fun id => if id == "0xt1" then some (EthTx.mk "zz") else none,
    btcGet := fun _ => BtcResult.err none }

/-- An invitee whose proof does not replay to the entry root. -/
def invBad : ISignInvite := { proof := [], hash := "x" }

/-- An invitee whose proof replays to the entry root. -/
def invGood : ISignInvite := { proof := [], hash := "r" }

/-- A sign-invite entry with a failing invitee listed before a passing
one, and a found transaction with matching payload. -/
def svC5 : IInviteAnchor :=
  { transactionId := "t1", nodeUrl := "wss://node.example", explorer := "",
    merkleRoot := "r", proof := [],
    invites := some [("i1", invBad), ("i2", invGood)], transactionStatus := none }

/-- The sign-invites set holding only svC5. -/
def siC5 : ISignInvites := ISignInvites.mk [("ethereum", [("1", svC5)])]

/-- An oracle finding transaction 0xt1 with payload 0xr. -/
def oracleC5 : Oracle :=
  { ethTx := fun id => if id == "0xt1" then some (EthTx.mk "0xr") else none,
    btcGet := fun _ => BtcResult.err none }

/-- A seal with an upper-case dataHash and nothing to validate. -/
def sealC6 : ISeal :=
  { id := "s", dataHash := "AB", anchors := [], signatures := none,
    signinvites := none, sealedAt := "t" }

/-- A signature entry expecting the upper-case payload AB. -/
def sigC6 : ISignature :=
  { transactionId := "t1", nodeUrl := "", explorer := "", signature := "AB",
    signed := "", transactionStatus := none }

/-- An oracle finding transaction 0xt1 with the lower-case payload 0xab. -/
def oracleC6 : Oracle :=
  { ethTx := fun id => if id == "0xt1" then some (EthTx.mk "0xab") else none,
    btcGet := fun _ => BtcResult.err none }

/-- Following the spec's words: the tri-state of one signature entry: a
found transaction with matching payload is CONFIRMED and with a
mismatching payload FAILED; a missing transaction is PENDING when the
cached transactionStatus equals PENDING and FAILED otherwise. -/
def sigEntryStatus (o : Oracle) (e : ISignature) : SealStatus :=
  match o.ethTx (addHexPfx e.transactionId) with
  | some tx =>
    if tx.data == addHexPfx e.signature then SealStatus.confirmed else SealStatus.failed
  | none =>
    if e.transactionStatus == some SealStatus.pending then SealStatus.pending
    else SealStatus.failed

/-- Following the spec's words: the entries under the ethereum protocol
key, in iteration order; entries under any other protocol key are
ignored. -/
def ethSigEntries : SigMap → List ISignature
  | [] => []
  | (p, es) :: rest =>
    if p == "ethereum" then es.map Prod.snd ++ ethSigEntries rest else ethSigEntries rest

/-- Following the spec's words: the aggregate over all entry statuses:
FAILED if any entry is FAILED, else PENDING if any entry is PENDING, else
CONFIRMED. -/
def aggStatus (l : List SealStatus) : SealStatus :=
  if SealStatus.failed ∈ l then SealStatus.failed
  else if SealStatus.pending ∈ l then SealStatus.pending
  else SealStatus.confirmed

/-- The accumulator of a reconciler loop after consuming the given entry
statuses, none of which is FAILED-triggering. -/
def accJoin (acc : SealStatus) (l : List SealStatus) : SealStatus :=
  if SealStatus.pending ∈ l then SealStatus.pending else acc

/-- Following the spec's words: the last transaction output carrying an
embedded data payload, if any. -/
def lastDataHex : List BtcOutput → Option String
  | [] => none
  | out :: rest =>
    match lastDataHex rest with
    | some d => some d
    | none => out.dataHex

/-- A Bitcoin anchor fixture expecting commitment r. -/
def anchorC8 : IAnchor :=
  { transactionId := "tb", nodeUrl := "", explorer := "", merkleRoot := "r", proof := [] }

/-- A seal holding only the Bitcoin anchor anchorC8. -/
def sealC8 : ISeal :=
  { id := "s", dataHash := "dh", anchors := [("bitcoin", [("mainnet", anchorC8)])],
    signatures := none, signinvites := none, sealedAt := "t" }

/-- An explorer oracle whose transaction has a single output carrying the
empty data payload. -/
def oracleC8 : Oracle :=
  { ethTx := fun _ => none,
    btcGet := fun _ => BtcResult.ok (BtcTx.mk [BtcOutput.mk (some "")]) }

/-- An explorer oracle whose transaction has a single output carrying the
payload r. -/
def oracleC8ok : Oracle :=
  { ethTx := fun _ => none,
    btcGet := fun _ => BtcResult.ok (BtcTx.mk [BtcOutput.mk (some "r")]) }

/-- An explorer oracle whose transaction has no outputs at all. -/
def oracleC8empty : Oracle :=
  { ethTx := fun _ => none, btcGet := fun _ => BtcResult.ok (BtcTx.mk []) }

/-- An explorer oracle answering 429 Too Many Requests. -/
def oracleC8lim : Oracle :=
  { ethTx := fun _ => none, btcGet := fun _ => BtcResult.err (some 429) }

/-- An explorer oracle answering 404. -/
def oracleC8err : Oracle :=
  { ethTx := fun _ => none, btcGet := fun _ => BtcResult.err (some 404) }

/-- Following the spec's words: after resolve, a signature entry is
either unchanged, or identical except that transactionStatus was set to
CONFIRMED, the latter only when its transaction was found with matching
payload. -/
def sigWriteOk (o : Oracle) (e e2 : ISignature) : Prop :=
  e2 = e ∨ (e2 = { e with transactionStatus := some SealStatus.confirmed }
    ∧ ∃ tx, o.ethTx (addHexPfx e.transactionId) = some tx
        ∧ tx.data = addHexPfx e.signature)

/-- Following the spec's words: the same write-once-CONFIRMED contract
for a sign-invite entry, whose expected payload is its merkleRoot. -/
def invWriteOk (o : Oracle) (sv sv2 : IInviteAnchor) : Prop :=
  sv2 = sv ∨ (sv2 = { sv with transactionStatus := some SealStatus.confirmed }
    ∧ ∃ tx, o.ethTx (addHexPfx sv.transactionId) = some tx
        ∧ tx.data = addHexPfx sv.merkleRoot)

/-- The resolve contract lifted over an optional signature set: presence,
protocol keys and entry keys are preserved and every entry satisfies
sigWriteOk. -/
def sigsResolvedOk (o : Oracle) : Option SigMap → Option SigMap → Prop
  | none, none => True
  | some m, some m2 =>
    List.Forall₂ (fun pe pe2 => pe2.1 = pe.1 ∧
      List.Forall₂ (fun ke ke2 => ke2.1 = ke.1 ∧ sigWriteOk o ke.2 ke2.2) pe.2 pe2.2) m m2
  | _, _ => False

/-- The resolve contract lifted over an optional sign-invites set. -/
def invsResolvedOk (o : Oracle) : Option ISignInvites → Option ISignInvites → Prop
  | none, none => True
  | some si, some si2 =>
    List.Forall₂ (fun pe pe2 => pe2.1 = pe.1 ∧
      List.Forall₂ (fun ke ke2 => ke2.1 = ke.1 ∧ invWriteOk o ke.2 ke2.2) pe.2 pe2.2)
      si.anchors si2.anchors
  | _, _ => False

/-!
Theorems.  First generic string and Merkle-replay lemmas, then one
theorem per claim of the specification review.
-/

theorem string_data_append (a b : String) : (a ++ b).data = a.data ++ b.data := by
  cases a; cases b; rfl

theorem string_eq_of_data (a b : String) (h : a.data = b.data) : a = b := by
  cases a; cases b; exact congrArg String.mk h

theorem strAppend_left_cancel {t a b : String} (h2 : t ++ a = t ++ b) : a = b := by
  apply string_eq_of_data
  have hd := congrArg String.data h2
  rw [string_data_append, string_data_append] at hd
  exact List.append_cancel_left hd

theorem strAppend_right_cancel {a b t : String} (h2 : a ++ t = b ++ t) : a = b := by
  apply string_eq_of_data
  have hd := congrArg String.data h2
  rw [string_data_append, string_data_append] at hd
  exact List.append_cancel_right hd

theorem demoHash_inj : Function.Injective demoHash := by
  intro a b hab
  exact strAppend_left_cancel hab

theorem merkleAcc_append (h : String → String) (pre post : List ProofStep) (l : String) :
    merkleAcc h (pre ++ post) l = merkleAcc h post (merkleAcc h pre l) := by
  induction pre generalizing l with
  | nil => rfl
  | cons step rest ih =>
    cases step with
    | left s => simpa [merkleAcc] using ih (h (s ++ l))
    | right s => simpa [merkleAcc] using ih (h (l ++ s))

theorem merkleAcc_ne (h : String → String) (hinj : Function.Injective h) :
    ∀ (post : List ProofStep) (a b : String), a ≠ b →
      merkleAcc h post a ≠ merkleAcc h post b := by
  intro post
  induction post with
  | nil => intro a b hab; simpa [merkleAcc] using hab
  | cons step rest ih =>
    intro a b hab
    cases step with
    | left s =>
      refine ih (h (s ++ a)) (h (s ++ b)) (hinj.ne ?_)
      intro hc
      exact hab (strAppend_left_cancel hc)
    | right s =>
      refine ih (h (a ++ s)) (h (b ++ s)) (hinj.ne ?_)
      intro hc
      exact hab (strAppend_right_cancel hc)

/-- C1 (counterexample): flipping a left tag to a right tag does NOT
always make verification fail.  When the flipped step's sibling equals
the accumulator at that step, the hash is applied to the identical
concatenation, so the flipped proof still replays to the same root; this
holds for every hash function, in particular SHA3-512, and is shown here
for an injective one. -/
theorem claim_C1_cex :
    validateProof demoHash [ProofStep.left "a"] "a" (merkleAcc demoHash [ProofStep.left "a"] "a")
      = true
    ∧ validateProof demoHash [ProofStep.right "a"] "a"
        (merkleAcc demoHash [ProofStep.left "a"] "a") = true := by
  decide

/-- C1 (amended): for every hash function, a proof replayed by the
left/right fold verifies against the root that fold produces; an empty
proof verifies iff leaf equals root; and, provided the hash function is
injective, flipping one left/right tag at a step whose two concatenation
orders differ makes verification fail, as does replacing one sibling by a
different value. -/
theorem claim_C1_amended :
    (∀ (h : String → String) (steps : List ProofStep) (leaf : String),
        validateProof h steps leaf (merkleAcc h steps leaf) = true)
    ∧ (∀ (h : String → String) (leaf root : String),
        validateProof h [] leaf root = true ↔ leaf = root)
    ∧ (∀ (h : String → String), Function.Injective h →
        ∀ (pre post : List ProofStep) (s leaf : String),
          s ++ merkleAcc h pre leaf ≠ merkleAcc h pre leaf ++ s →
          validateProof h (pre ++ ProofStep.right s :: post) leaf
            (merkleAcc h (pre ++ ProofStep.left s :: post) leaf) = false
          ∧ validateProof h (pre ++ ProofStep.left s :: post) leaf
            (merkleAcc h (pre ++ ProofStep.right s :: post) leaf) = false)
    ∧ (∀ (h : String → String), Function.Injective h →
        ∀ (pre post : List ProofStep) (s s2 leaf : String), s2 ≠ s →
          validateProof h (pre ++ ProofStep.left s2 :: post) leaf
            (merkleAcc h (pre ++ ProofStep.left s :: post) leaf) = false
          ∧ validateProof h (pre ++ ProofStep.right s2 :: post) leaf
            (merkleAcc h (pre ++ ProofStep.right s :: post) leaf) = false) := by
  refine ⟨?_, ?_, ?_, ?_⟩
  · intro h steps leaf
    simp [validateProof]
  · intro h leaf root
    simp [validateProof, merkleAcc]
  · intro h hinj pre post s leaf hne
    constructor
    · rw [validateProof, merkleAcc_append, merkleAcc_append]
      rw [beq_eq_false_iff_ne]
      exact merkleAcc_ne h hinj _ _ _
        (hinj.ne (fun hc => hne (((strAppend_left_cancel (t := "")) (by simpa using hc.symm)))))
    · rw [validateProof, merkleAcc_append, merkleAcc_append]
      rw [beq_eq_false_iff_ne]
      exact merkleAcc_ne h hinj _ _ _ (hinj.ne (fun hc => hne (by simpa using hc)))
  · intro h hinj pre post s s2 leaf hne
    constructor
    · rw [validateProof, merkleAcc_append, merkleAcc_append]
      rw [beq_eq_false_iff_ne]
      refine merkleAcc_ne h hinj _ _ _ (hinj.ne ?_)
      intro hc
      exact hne (strAppend_right_cancel hc)
    · rw [validateProof, merkleAcc_append, merkleAcc_append]
      rw [beq_eq_false_iff_ne]
      refine merkleAcc_ne h hinj _ _ _ (hinj.ne ?_)
      intro hc
      exact hne (strAppend_left_cancel hc)

/-- C1 (witness): the amended theorem applied to the injective demoHash on
concrete inputs. -/
theorem claim_C1_amended_witness :
    validateProof demoHash [ProofStep.left "b"] "a"
      (merkleAcc demoHash [ProofStep.left "b"] "a") = true
    ∧ (validateProof demoHash [] "a" "a" = true ↔ "a" = "a")
    ∧ validateProof demoHash ([] ++ ProofStep.right "b" :: []) "a"
        (merkleAcc demoHash ([] ++ ProofStep.left "b" :: []) "a") = false
    ∧ validateProof demoHash ([] ++ ProofStep.left "c" :: []) "a"
        (merkleAcc demoHash ([] ++ ProofStep.left "b" :: []) "a") = false :=
  ⟨claim_C1_amended.1 demoHash [ProofStep.left "b"] "a",
   claim_C1_amended.2.1 demoHash "a" "a",
   (claim_C1_amended.2.2.1 demoHash demoHash_inj [] [] "b" "a" (by decide)).1,
   (claim_C1_amended.2.2.2 demoHash demoHash_inj [] [] "b" "c" "a" (by decide)).1⟩

/-- C2 (counterexample): validateSealAndData with a data digest that
differs from the seal's dataHash still performs the network validation.
On a seal with one Ethereum anchor, the run issues a transaction lookup
(the request trace is nonempty), contradicting the claim that no
transaction lookup is made. -/
theorem claim_C2_cex :
    hashForData idHash "bb" DataType.HASH = Except.ok "bb"
    ∧ toLowerCase "bb" ≠ toLowerCase sealC2.dataHash
    ∧ (validateSealAndData oracleNone cfg0 idHash idHash sealC2 "bb" DataType.HASH).1
        = [Req.eth "0xt1"] := by
  refine ⟨rfl, by decide, by decide⟩

/-- C2 (amended): on a digest mismatch the returned status is FAILED
whenever validateSeal completes, but validateSeal is executed first: the
request trace of validateSealAndData equals that of validateSeal, and an
error thrown by validateSeal propagates unchanged. -/
theorem claim_C2_amended (o : Oracle) (cfg : Config) (mh sha3 : String → String)
    (sl : ISeal) (data : String) (dt : DataType) (hash : String)
    (hh : hashForData sha3 data dt = Except.ok hash)
    (hm : toLowerCase hash ≠ toLowerCase sl.dataHash) :
    (validateSealAndData o cfg mh sha3 sl data dt).1 = (validateSeal o cfg mh sl).1
    ∧ (validateSealAndData o cfg mh sha3 sl data dt).2 =
        (match (validateSeal o cfg mh sl).2 with
         | Except.ok _ => Except.ok SealStatus.failed
         | Except.error e => Except.error e) := by
  have hb : (toLowerCase hash == toLowerCase sl.dataHash) = false :=
    beq_eq_false_iff_ne.mpr hm
  constructor
  · simp only [validateSealAndData, hh]
    cases h2 : (validateSeal o cfg mh sl).2 <;> simp [h2]
  · simp only [validateSealAndData, hh]
    cases h2 : (validateSeal o cfg mh sl).2 <;> simp [h2, hb]

/-- C2 (witness): the amended theorem at a concrete mismatching input. -/
theorem claim_C2_amended_witness :
    (validateSealAndData oracleNone cfg0 idHash idHash sealC2 "bb" DataType.HASH).1
      = (validateSeal oracleNone cfg0 idHash sealC2).1
    ∧ (validateSealAndData oracleNone cfg0 idHash idHash sealC2 "bb" DataType.HASH).2 =
        (match (validateSeal oracleNone cfg0 idHash sealC2).2 with
         | Except.ok _ => Except.ok SealStatus.failed
         | Except.error e => Except.error e) :=
  claim_C2_amended oracleNone cfg0 idHash idHash sealC2 "bb" DataType.HASH "bb" rfl (by decide)

/-- C3: when anchor validation completes with boolean b, validateSeal
returns FAILED if b is false or either reconciliation is FAILED, else
PENDING if either reconciliation is PENDING, else CONFIRMED; absent and
empty signature or sign-invite sets are vacuously CONFIRMED. -/
theorem claim_C3 (o : Oracle) (cfg : Config) (mh : String → String) (sl : ISeal)
    (b : Bool) (r : List Req)
    (hA : validateAnchors o cfg mh sl.anchors sl.dataHash = (r, Except.ok b)) :
    (validateSeal o cfg mh sl).2 =
      Except.ok (statusCombine b (sigStatusOf o sl.signatures) (invStatusOf o mh sl.signinvites))
    ∧ sigStatusOf o none = SealStatus.confirmed
    ∧ sigStatusOf o (some []) = SealStatus.confirmed
    ∧ sigStatusOf o (some [("ethereum", [])]) = SealStatus.confirmed
    ∧ invStatusOf o mh none = SealStatus.confirmed
    ∧ (∀ si : ISignInvites, si.anchors = [] →
        invStatusOf o mh (some si) = SealStatus.confirmed)
    ∧ invStatusOf o mh (some (ISignInvites.mk [("ethereum", [])])) = SealStatus.confirmed := by
  have h2 : (validateAnchors o cfg mh sl.anchors sl.dataHash).2 = Except.ok b := by rw [hA]
  refine ⟨?_, rfl, rfl, rfl, rfl, ?_, rfl⟩
  · simp only [validateSeal, h2]
    cases hs : sl.signatures <;> cases hsi : sl.signinvites
    · dsimp only [sigStatusOf, invStatusOf]
      cases b <;> rfl
    · dsimp only [sigStatusOf, invStatusOf]
      generalize (validateSignInvites o mh _).2 = s2
      cases b <;> cases s2 <;> rfl
    · dsimp only [sigStatusOf, invStatusOf]
      generalize (validateSignatures o _).2 = s1
      cases b <;> cases s1 <;> rfl
    · dsimp only [sigStatusOf, invStatusOf]
      generalize (validateSignatures o _).2 = s1
      generalize (validateSignInvites o mh _).2 = s2
      cases b <;> cases s1 <;> cases s2 <;> rfl
  · intro si hsi
    obtain ⟨a⟩ := si
    cases hsi
    rfl

/-- C3 (witness): the theorem at a seal with no anchors, signatures or
invites, whose anchor validation trivially yields true. -/
theorem claim_C3_witness :
    (validateSeal oracleNone cfg0 idHash sealC3).2 =
      Except.ok (statusCombine true (sigStatusOf oracleNone sealC3.signatures)
        (invStatusOf oracleNone idHash sealC3.signinvites))
    ∧ sigStatusOf oracleNone none = SealStatus.confirmed
    ∧ sigStatusOf oracleNone (some []) = SealStatus.confirmed
    ∧ sigStatusOf oracleNone (some [("ethereum", [])]) = SealStatus.confirmed
    ∧ invStatusOf oracleNone idHash none = SealStatus.confirmed
    ∧ (∀ si : ISignInvites, si.anchors = [] →
        invStatusOf oracleNone idHash (some si) = SealStatus.confirmed)
    ∧ invStatusOf oracleNone idHash (some (ISignInvites.mk [("ethereum", [])]))
        = SealStatus.confirmed :=
  claim_C3 oracleNone cfg0 idHash sealC3 true [] rfl

/-- C4: evaluation of validateEthereumAnchor at inputs the corrected
per-entry AND would reject.  First: entry 1 is found with a mismatching
payload (so its conjunct is false), yet entry 2's retired-network nodeUrl
makes the whole function return true, erasing entry 1's failure.  Second:
when entry 1's transaction is not found the function returns false at
once and entry 2 is never looked up (a single request in the trace). -/
theorem claim_C4_eval :
    validateEthereumAnchor oracleC4 idHash anchorsC4 "dh" = ([Req.eth "0xt1"], true)
    ∧ oracleC4.ethTx "0xt1" = some (EthTx.mk "zz")
    ∧ ("zz" == addHexPfx anchorC4a.merkleRoot) = false
    ∧ strContains anchorC4b.nodeUrl "mintnet" = true
    ∧ validateEthereumAnchor oracleNone idHash anchorsC4 "dh" = ([Req.eth "0xt1"], false) := by
  refine ⟨by decide, by decide, by decide, by decide, by decide⟩

/-- C5: evaluation of validateSignInvites at a sign-invite entry whose
transaction is found with matching payload and whose first invitee's
proof fails while the second invitee's proof verifies.  The entry loop
overwrites validProof on each iteration, so the failing first invitee is
masked and the result is CONFIRMED, contradicting the ALL-invitees
requirement. -/
theorem claim_C5_eval :
    validateProof idHash invBad.proof invBad.hash svC5.merkleRoot = false
    ∧ validateProof idHash invGood.proof invGood.hash svC5.merkleRoot = true
    ∧ validateSignInvites oracleC5 idHash siC5 = ([Req.eth "0xt1"], SealStatus.confirmed) := by
  refine ⟨by decide, by decide, by decide⟩

/-- C6 (counterexample): a computed digest that equals the seal's
dataHash except for letter case IS treated as matching: both sides are
lowercased before comparison, so validateSealAndData returns the seal's
validation status instead of FAILED. -/
theorem claim_C6_cex :
    ("ab" : String) ≠ "AB"
    ∧ hashForData idHash "ab" DataType.HASH = Except.ok "ab"
    ∧ validateSealAndData oracleNone cfg0 idHash idHash sealC6 "ab" DataType.HASH
        = ([], Except.ok SealStatus.confirmed) := by
  refine ⟨by decide, rfl, by decide⟩

/-- C6 (amended): HexCodec performs only 0x-prefixing and no case
normalization, and the on-chain payload comparisons are case-sensitive
exact string equality, but the top-level digest comparison of
validateSealAndData is case-insensitive: digests equal after lowercasing
are treated as matching. -/
theorem claim_C6_amended :
    (∀ v : String, addHexPfx v = v ∨ addHexPfx v = "0x" ++ v)
    ∧ (∀ (o : Oracle) (cfg : Config) (mh sha3 : String → String) (sl : ISeal)
        (data : String) (dt : DataType) (hash : String) (st : SealStatus),
        hashForData sha3 data dt = Except.ok hash →
        toLowerCase hash = toLowerCase sl.dataHash →
        (validateSeal o cfg mh sl).2 = Except.ok st →
        (validateSealAndData o cfg mh sha3 sl data dt).2 = Except.ok st)
    ∧ (∀ (o : Oracle) (a : String) (e : ISignature) (tx : EthTx),
        o.ethTx (addHexPfx e.transactionId) = some tx →
        tx.data ≠ addHexPfx e.signature →
        (validateSignatures o [("ethereum", [(a, e)])]).2 = SealStatus.failed) := by
  refine ⟨?_, ?_, ?_⟩
  · intro v
    by_cases h : isHexPfx v
    · exact Or.inl (by simp [addHexPfx, h])
    · exact Or.inr (by simp [addHexPfx, h])
  · intro o cfg mh sha3 sl data dt hash st hh hlow hok
    simp only [validateSealAndData, hh, hok, hlow, beq_self_eq_true, if_true]
  · intro o a e tx htx hne
    have hb : (tx.data == addHexPfx e.signature) = false := beq_eq_false_iff_ne.mpr hne
    simp only [validateSignatures, sigProtocolsLoop, sigEntriesLoop, sigEntryRes, htx, hb]
    simp

/-- C6 (witness): the amended theorem at concrete inputs, including a
signature payload differing from the expected commitment only in letter
case, which yields FAILED. -/
theorem claim_C6_amended_witness :
    (addHexPfx "ab" = "ab" ∨ addHexPfx "ab" = "0x" ++ "ab")
    ∧ (validateSealAndData oracleNone cfg0 idHash idHash sealC6 "ab" DataType.HASH).2
        = Except.ok SealStatus.confirmed
    ∧ (validateSignatures oracleC6 [("ethereum", [("a", sigC6)])]).2 = SealStatus.failed :=
  ⟨claim_C6_amended.1 "ab",
   claim_C6_amended.2.1 oracleNone cfg0 idHash idHash sealC6 "ab" DataType.HASH "ab"
     SealStatus.confirmed rfl (by decide) (by decide),
   claim_C6_amended.2.2 oracleC6 "a" sigC6 (EthTx.mk "0xab") (by decide) (by decide)⟩

theorem accJoin_ne_failed (acc : SealStatus) (l : List SealStatus)
    (h : acc ≠ SealStatus.failed) : accJoin acc l ≠ SealStatus.failed := by
  unfold accJoin
  by_cases hp : SealStatus.pending ∈ l <;> simp [hp, h]

theorem accJoin_append (acc : SealStatus) (l1 l2 : List SealStatus) :
    accJoin (accJoin acc l1) l2 = accJoin acc (l1 ++ l2) := by
  by_cases h1 : SealStatus.pending ∈ l1 <;> by_cases h2 : SealStatus.pending ∈ l2 <;>
    simp [accJoin, h1, h2, List.mem_append]

theorem sigEntryRes_spec (o : Oracle) (acc : SealStatus) (e : ISignature) :
    sigEntryRes o acc e =
      (match sigEntryStatus o e with
       | SealStatus.confirmed => LoopRes.cont acc
       | SealStatus.failed => LoopRes.ret SealStatus.failed
       | SealStatus.pending => LoopRes.cont SealStatus.pending) := by
  unfold sigEntryRes sigEntryStatus
  cases o.ethTx (addHexPfx e.transactionId) with
  | none =>
    cases h : (e.transactionStatus == some SealStatus.pending) <;> simp [h]
  | some tx =>
    cases h : (tx.data == addHexPfx e.signature) <;> cases acc <;> simp [h]

theorem sigEntriesLoop_spec (o : Oracle) :
    ∀ (entries : List (String × ISignature)) (acc : SealStatus),
      acc ≠ SealStatus.failed →
      (sigEntriesLoop o acc entries).2 =
        (if SealStatus.failed ∈ entries.map (fun ke => sigEntryStatus o ke.2) then
           LoopRes.ret SealStatus.failed
         else LoopRes.cont (accJoin acc (entries.map (fun ke => sigEntryStatus o ke.2)))) := by
  intro entries
  induction entries with
  | nil => intro acc hacc; simp [sigEntriesLoop, accJoin]
  | cons ke rest ih =>
    intro acc hacc
    obtain ⟨k, e⟩ := ke
    cases hst : sigEntryStatus o e with
    | confirmed =>
      have hres : sigEntryRes o acc e = LoopRes.cont acc := by rw [sigEntryRes_spec, hst]
      have hunf : (sigEntriesLoop o acc ((k, e) :: rest)).2 = (sigEntriesLoop o acc rest).2 := by
        simp [sigEntriesLoop, hres]
      rw [hunf, ih acc hacc, List.map_cons, hst]
      generalize List.map (fun ke => sigEntryStatus o ke.2) rest = L
      simp [accJoin, List.mem_cons]
    | failed =>
      have hres : sigEntryRes o acc e = LoopRes.ret SealStatus.failed := by
        rw [sigEntryRes_spec, hst]
      have hunf : (sigEntriesLoop o acc ((k, e) :: rest)).2 = LoopRes.ret SealStatus.failed := by
        simp [sigEntriesLoop, hres]
      rw [hunf, List.map_cons, hst]
      rw [if_pos (List.mem_cons_self _ _)]
    | pending =>
      have hres : sigEntryRes o acc e = LoopRes.cont SealStatus.pending := by
        rw [sigEntryRes_spec, hst]
      have hunf : (sigEntriesLoop o acc ((k, e) :: rest)).2
          = (sigEntriesLoop o SealStatus.pending rest).2 := by
        simp [sigEntriesLoop, hres]
      rw [hunf, ih SealStatus.pending (by simp), List.map_cons, hst]
      generalize List.map (fun ke => sigEntryStatus o ke.2) rest = L
      have hl : accJoin SealStatus.pending L = SealStatus.pending := by
        simp [accJoin]
      have hr : accJoin acc (SealStatus.pending :: L) = SealStatus.pending := by
        simp [accJoin]
      rw [hl, hr]
      simp [List.mem_cons]

theorem sigProtocolsLoop_spec (o : Oracle) :
    ∀ (ps : SigMap) (acc : SealStatus),
      acc ≠ SealStatus.failed →
      (sigProtocolsLoop o acc ps).2 =
        (if SealStatus.failed ∈ (ethSigEntries ps).map (sigEntryStatus o) then
           LoopRes.ret SealStatus.failed
         else LoopRes.cont (accJoin acc ((ethSigEntries ps).map (sigEntryStatus o)))) := by
  intro ps
  induction ps with
  | nil => intro acc hacc; simp [sigProtocolsLoop, ethSigEntries, accJoin]
  | cons pe rest ih =>
    intro acc hacc
    obtain ⟨p, es⟩ := pe
    by_cases hp : (p == "ethereum") = true
    · have hmap : (ethSigEntries ((p, es) :: rest)).map (sigEntryStatus o)
          = es.map (fun ke => sigEntryStatus o ke.2)
            ++ (ethSigEntries rest).map (sigEntryStatus o) := by
        show (if (p == "ethereum") = true then es.map Prod.snd ++ ethSigEntries rest
              else ethSigEntries rest).map (sigEntryStatus o) = _
        rw [if_pos hp, List.map_append, List.map_map]
        rfl
      have hspec := sigEntriesLoop_spec o es acc hacc
      rcases hxp : sigEntriesLoop o acc es with ⟨r, res⟩
      rw [hxp] at hspec
      simp only at hspec
      have hunf : (sigProtocolsLoop o acc ((p, es) :: rest)).2 =
          (match res with
           | LoopRes.ret s => LoopRes.ret s
           | LoopRes.cont acc2 => (sigProtocolsLoop o acc2 rest).2) := by
        cases res <;> simp [sigProtocolsLoop, hp, hxp]
      rw [hunf, hmap]
      by_cases hf : SealStatus.failed ∈ es.map (fun ke => sigEntryStatus o ke.2)
      · rw [if_pos hf] at hspec
        subst hspec
        rw [if_pos (List.mem_append.mpr (Or.inl hf))]
      · rw [if_neg hf] at hspec
        subst hspec
        have hacc2 := accJoin_ne_failed acc (es.map (fun ke => sigEntryStatus o ke.2)) hacc
        show (sigProtocolsLoop o _ rest).2 = _
        rw [ih _ hacc2, accJoin_append]
        by_cases hf2 : SealStatus.failed ∈ (ethSigEntries rest).map (sigEntryStatus o)
        · rw [if_pos hf2, if_pos (List.mem_append.mpr (Or.inr hf2))]
        · rw [if_neg hf2, if_neg (by simp [List.mem_append, hf, hf2])]
    · have hee : ethSigEntries ((p, es) :: rest) = ethSigEntries rest := by
        simp [ethSigEntries, hp]
      have hloop : sigProtocolsLoop o acc ((p, es) :: rest) = sigProtocolsLoop o acc rest := by
        simp [sigProtocolsLoop, hp]
      rw [hloop, hee, ih acc hacc]

/-- C7: validateSignatures equals the spec's aggregate: only ethereum
entries participate (others are ignored without error), each entry's
tri-state is CONFIRMED for a found matching transaction, FAILED for a
found mismatching one, PENDING for a missing one with cached PENDING and
FAILED for a missing one otherwise, and the aggregate is FAILED if any
entry is FAILED, else PENDING if any is PENDING, else CONFIRMED. -/
theorem claim_C7 (o : Oracle) (sigs : SigMap) :
    (validateSignatures o sigs).2 = aggStatus ((ethSigEntries sigs).map (sigEntryStatus o)) := by
  have h := sigProtocolsLoop_spec o sigs SealStatus.confirmed (by simp)
  unfold validateSignatures
  rcases hxp : sigProtocolsLoop o SealStatus.confirmed sigs with ⟨r, res⟩
  rw [hxp] at h
  simp only at h
  by_cases hf : SealStatus.failed ∈ (ethSigEntries sigs).map (sigEntryStatus o)
  · rw [if_pos hf] at h
    subst h
    simp [aggStatus, hf]
  · rw [if_neg hf] at h
    subst h
    simp [aggStatus, hf, accJoin]

theorem sigEntryRes_failret (o : Oracle) (e : ISignature)
    (h1 : o.ethTx (addHexPfx e.transactionId) = none)
    (h2 : e.transactionStatus ≠ some SealStatus.pending) :
    ∀ acc, sigEntryRes o acc e = LoopRes.ret SealStatus.failed := by
  intro acc
  have hb : (e.transactionStatus == some SealStatus.pending) = false :=
    beq_eq_false_iff_ne.mpr h2
  unfold sigEntryRes
  rw [h1]
  simp [hb]

theorem invEntryRes_failret (o : Oracle) (mh : String → String) (sv : IInviteAnchor)
    (h1 : o.ethTx (addHexPfx sv.transactionId) = none)
    (h2 : sv.transactionStatus ≠ some SealStatus.pending) :
    ∀ acc, invEntryRes o mh acc sv = LoopRes.ret SealStatus.failed := by
  intro acc
  have hb : (sv.transactionStatus == some SealStatus.pending) = false :=
    beq_eq_false_iff_ne.mpr h2
  unfold invEntryRes
  rw [h1]
  simp [hb]

theorem sigEntriesLoop_cut (o : Oracle) (k : String) (e : ISignature)
    (hfail : ∀ acc, sigEntryRes o acc e = LoopRes.ret SealStatus.failed) :
    ∀ (pre : List (String × ISignature)) (post post2 : List (String × ISignature))
      (acc : SealStatus),
      sigEntriesLoop o acc (pre ++ (k, e) :: post)
        = sigEntriesLoop o acc (pre ++ (k, e) :: post2) := by
  intro pre
  induction pre with
  | nil =>
    intro post post2 acc
    simp [sigEntriesLoop, hfail acc]
  | cons ke rest ih =>
    intro post post2 acc
    obtain ⟨k0, e0⟩ := ke
    cases hr : sigEntryRes o acc e0 with
    | ret s => simp [sigEntriesLoop, hr]
    | cont acc2 => simp [sigEntriesLoop, hr, ih post post2 acc2]

theorem invEntriesLoop_cut (o : Oracle) (mh : String → String) (k : String)
    (sv : IInviteAnchor)
    (hfail : ∀ acc, invEntryRes o mh acc sv = LoopRes.ret SealStatus.failed) :
    ∀ (pre : List (String × IInviteAnchor)) (post post2 : List (String × IInviteAnchor))
      (acc : SealStatus),
      invEntriesLoop o mh acc (pre ++ (k, sv) :: post)
        = invEntriesLoop o mh acc (pre ++ (k, sv) :: post2) := by
  intro pre
  induction pre with
  | nil =>
    intro post post2 acc
    simp [invEntriesLoop, hfail acc]
  | cons ke rest ih =>
    intro post post2 acc
    obtain ⟨k0, sv0⟩ := ke
    cases hr : invEntryRes o mh acc sv0 with
    | ret s => simp [invEntriesLoop, hr]
    | cont acc2 => simp [invEntriesLoop, hr, ih post post2 acc2]

theorem validateSignatures_single (o : Oracle) (entries : List (String × ISignature)) :
    validateSignatures o [("ethereum", entries)]
      = ((sigEntriesLoop o SealStatus.confirmed entries).1,
         match (sigEntriesLoop o SealStatus.confirmed entries).2 with
         | LoopRes.ret s => s
         | LoopRes.cont a => a) := by
  rcases hz : sigEntriesLoop o SealStatus.confirmed entries with ⟨r, res⟩
  cases res <;> simp [validateSignatures, sigProtocolsLoop, hz]

theorem validateSignInvites_single (o : Oracle) (mh : String → String)
    (entries : List (String × IInviteAnchor)) :
    validateSignInvites o mh (ISignInvites.mk [("ethereum", entries)])
      = ((invEntriesLoop o mh SealStatus.confirmed entries).1,
         match (invEntriesLoop o mh SealStatus.confirmed entries).2 with
         | LoopRes.ret s => s
         | LoopRes.cont a => a) := by
  rcases hz : invEntriesLoop o mh SealStatus.confirmed entries with ⟨r, res⟩
  cases res <;> simp [validateSignInvites, invProtocolsLoop, hz]

/-- C10: in validateSignatures and validateSignInvites alike, an entry
whose transaction is not found and whose cached transactionStatus is not
PENDING returns FAILED immediately: the run over pre ++ entry :: post
equals the run over pre ++ entry alone (same verdict and same request
trace, so no lookup is issued for any later entry and the result is
independent of them), and when the entry comes first the whole function
returns FAILED after that single lookup. -/
theorem claim_C10 (o : Oracle) (mh : String → String)
    (pre post : List (String × ISignature)) (k : String) (e : ISignature)
    (preI postI : List (String × IInviteAnchor)) (kI : String) (sv : IInviteAnchor)
    (hve : o.ethTx (addHexPfx e.transactionId) = none)
    (hse : e.transactionStatus ≠ some SealStatus.pending)
    (hvi : o.ethTx (addHexPfx sv.transactionId) = none)
    (hsi : sv.transactionStatus ≠ some SealStatus.pending) :
    validateSignatures o [("ethereum", pre ++ (k, e) :: post)]
      = validateSignatures o [("ethereum", pre ++ [(k, e)])]
    ∧ validateSignatures o [("ethereum", (k, e) :: post)]
      = ([sigEntryReq e], SealStatus.failed)
    ∧ validateSignInvites o mh (ISignInvites.mk [("ethereum", preI ++ (kI, sv) :: postI)])
      = validateSignInvites o mh (ISignInvites.mk [("ethereum", preI ++ [(kI, sv)])])
    ∧ validateSignInvites o mh (ISignInvites.mk [("ethereum", (kI, sv) :: postI)])
      = ([invEntryReq sv], SealStatus.failed) := by
  have hfe := sigEntryRes_failret o e hve hse
  have hfi := invEntryRes_failret o mh sv hvi hsi
  refine ⟨?_, ?_, ?_, ?_⟩
  · rw [validateSignatures_single, validateSignatures_single,
      sigEntriesLoop_cut o k e hfe pre post []]
  · rw [validateSignatures_single]
    simp [sigEntriesLoop, hfe SealStatus.confirmed]
  · rw [validateSignInvites_single, validateSignInvites_single,
      invEntriesLoop_cut o mh kI sv hfi preI postI []]
  · rw [validateSignInvites_single]
    simp [invEntriesLoop, hfi SealStatus.confirmed]

/-- C10 (witness): the theorem at concrete entries with no cached status
under an oracle that finds nothing. -/
theorem claim_C10_witness :
    validateSignatures oracleNone [("ethereum", [] ++ ("k", sigC6) :: [("p2", sigC6)])]
      = validateSignatures oracleNone [("ethereum", [] ++ [("k", sigC6)])]
    ∧ validateSignatures oracleNone [("ethereum", ("k", sigC6) :: [("p2", sigC6)])]
      = ([sigEntryReq sigC6], SealStatus.failed)
    ∧ validateSignInvites oracleNone idHash
        (ISignInvites.mk [("ethereum", [] ++ ("kI", svC5) :: [("q2", svC5)])])
      = validateSignInvites oracleNone idHash
          (ISignInvites.mk [("ethereum", [] ++ [("kI", svC5)])])
    ∧ validateSignInvites oracleNone idHash
        (ISignInvites.mk [("ethereum", ("kI", svC5) :: [("q2", svC5)])])
      = ([invEntryReq svC5], SealStatus.failed) :=
  claim_C10 oracleNone idHash [] [("p2", sigC6)] "k" sigC6 [] [("q2", svC5)] "kI" svC5
    rfl (by decide) rfl (by decide)

theorem btcFold_eq :
    ∀ (outs : List BtcOutput) (acc : Option String),
      outs.foldl
        (fun acc out => match out.dataHex with
          | some d => some d
          | none => acc) acc
        = (match lastDataHex outs with
           | some d => some d
           | none => acc) := by
  intro outs
  induction outs with
  | nil => intro acc; rfl
  | cons out rest ih =>
    intro acc
    rw [List.foldl_cons, ih]
    cases hl : lastDataHex rest with
    | some d => simp [lastDataHex, hl]
    | none => cases hd : out.dataHex <;> simp [lastDataHex, hl, hd]

theorem validateBitcoinAnchor_single (o : Oracle) (cfg : Config) (mh : String → String)
    (dataHash k : String) (a : IAnchor) :
    validateBitcoinAnchor o cfg mh [("bitcoin", [(k, a)])] dataHash
      = (match o.btcGet (buildTxUrl cfg a.transactionId) with
         | BtcResult.err status =>
           if status == some 429 then
             ([Req.btc (buildTxUrl cfg a.transactionId)], Except.error VError.rateLimited)
           else ([Req.btc (buildTxUrl cfg a.transactionId)],
                 Except.error (VError.network status))
         | BtcResult.ok tx =>
           match lastDataHex tx.outputs with
           | none => ([Req.btc (buildTxUrl cfg a.transactionId)],
                      Except.error VError.merkleRootUndefined)
           | some m =>
             if m == "" then
               ([Req.btc (buildTxUrl cfg a.transactionId)],
                Except.error VError.merkleRootUndefined)
             else
               ([Req.btc (buildTxUrl cfg a.transactionId)],
                Except.ok ((m == a.merkleRoot)
                  && validateProof mh a.proof dataHash a.merkleRoot))) := by
  have hl : lookupD [("bitcoin", [(k, a)])] "bitcoin" ([] : List (String × IAnchor))
      = [(k, a)] := rfl
  unfold validateBitcoinAnchor
  rw [hl]
  cases hg : o.btcGet (buildTxUrl cfg a.transactionId) with
  | err status =>
    cases hs : (status == some 429) <;> simp [btcAnchorLoop, hg, hs]
  | ok tx =>
    simp only [btcAnchorLoop, hg, btcFold_eq]
    cases hm : lastDataHex tx.outputs with
    | none => simp
    | some m =>
      cases he : (m == "") <;> simp [he, btcAnchorLoop]

/-- C8 (counterexample): an output carrying the empty data payload is a
data-carrying output, yet the code raises NoCommitmentFound instead of
comparing that commitment against the anchor's merkleRoot, because the
empty string is falsy in the merkleRoot check. -/
theorem claim_C8_cex :
    lastDataHex [BtcOutput.mk (some "")] = some ""
    ∧ validateBitcoinAnchor oracleC8 cfg0 idHash [("bitcoin", [("mainnet", anchorC8)])] "dh"
        = ([Req.btc (buildTxUrl cfg0 "tb")], Except.error VError.merkleRootUndefined) := by
  refine ⟨rfl, by decide⟩

/-- C8 (amended): for a single Bitcoin network entry, the commitment
compared against the anchor's merkleRoot is the last output carrying a
nonempty data payload; when no output carries a data payload, or the last
carried payload is empty, validation fails with the NoCommitmentFound
error rather than a silent pending or false result; an HTTP 429 from the
explorer raises the distinct RateLimited failure while any other explorer
error status raises the generic network failure; and the RateLimited
failure propagates through validateSeal as a thrown error, not as a
FAILED verdict. -/
theorem claim_C8_amended :
    (∀ (o : Oracle) (cfg : Config) (mh : String → String) (dataHash k : String)
        (a : IAnchor) (outs : List BtcOutput) (m : String),
        o.btcGet (buildTxUrl cfg a.transactionId) = BtcResult.ok (BtcTx.mk outs) →
        lastDataHex outs = some m → m ≠ "" →
        validateBitcoinAnchor o cfg mh [("bitcoin", [(k, a)])] dataHash
          = ([Req.btc (buildTxUrl cfg a.transactionId)],
             Except.ok ((m == a.merkleRoot)
               && validateProof mh a.proof dataHash a.merkleRoot)))
    ∧ (∀ (o : Oracle) (cfg : Config) (mh : String → String) (dataHash k : String)
        (a : IAnchor) (outs : List BtcOutput),
        o.btcGet (buildTxUrl cfg a.transactionId) = BtcResult.ok (BtcTx.mk outs) →
        lastDataHex outs = none →
        validateBitcoinAnchor o cfg mh [("bitcoin", [(k, a)])] dataHash
          = ([Req.btc (buildTxUrl cfg a.transactionId)],
             Except.error VError.merkleRootUndefined))
    ∧ (∀ (o : Oracle) (cfg : Config) (mh : String → String) (dataHash k : String)
        (a : IAnchor) (outs : List BtcOutput),
        o.btcGet (buildTxUrl cfg a.transactionId) = BtcResult.ok (BtcTx.mk outs) →
        lastDataHex outs = some "" →
        validateBitcoinAnchor o cfg mh [("bitcoin", [(k, a)])] dataHash
          = ([Req.btc (buildTxUrl cfg a.transactionId)],
             Except.error VError.merkleRootUndefined))
    ∧ (∀ (o : Oracle) (cfg : Config) (mh : String → String) (dataHash k : String)
        (a : IAnchor),
        o.btcGet (buildTxUrl cfg a.transactionId) = BtcResult.err (some 429) →
        validateBitcoinAnchor o cfg mh [("bitcoin", [(k, a)])] dataHash
          = ([Req.btc (buildTxUrl cfg a.transactionId)], Except.error VError.rateLimited))
    ∧ (∀ (o : Oracle) (cfg : Config) (mh : String → String) (dataHash k : String)
        (a : IAnchor) (s : Option Nat), s ≠ some 429 →
        o.btcGet (buildTxUrl cfg a.transactionId) = BtcResult.err s →
        validateBitcoinAnchor o cfg mh [("bitcoin", [(k, a)])] dataHash
          = ([Req.btc (buildTxUrl cfg a.transactionId)], Except.error (VError.network s)))
    ∧ (∀ (o : Oracle) (cfg : Config) (mh : String → String) (sl : ISeal) (k : String)
        (a : IAnchor),
        sl.anchors = [("bitcoin", [(k, a)])] →
        o.btcGet (buildTxUrl cfg a.transactionId) = BtcResult.err (some 429) →
        validateSeal o cfg mh sl
          = ([Req.btc (buildTxUrl cfg a.transactionId)],
             Except.error VError.rateLimited)) := by
  refine ⟨?_, ?_, ?_, ?_, ?_, ?_⟩
  · intro o cfg mh dataHash k a outs m hbtc hm hne
    rw [validateBitcoinAnchor_single, hbtc]
    simp [hm, beq_eq_false_iff_ne.mpr hne]
  · intro o cfg mh dataHash k a outs hbtc hm
    rw [validateBitcoinAnchor_single, hbtc]
    simp [hm]
  · intro o cfg mh dataHash k a outs hbtc hm
    rw [validateBitcoinAnchor_single, hbtc]
    simp [hm]
  · intro o cfg mh dataHash k a hbtc
    rw [validateBitcoinAnchor_single, hbtc]
    simp
  · intro o cfg mh dataHash k a s hs hbtc
    rw [validateBitcoinAnchor_single, hbtc]
    simp [beq_eq_false_iff_ne.mpr hs]
  · intro o cfg mh sl k a hanch hbtc
    have hb : validateBitcoinAnchor o cfg mh [("bitcoin", [(k, a)])] sl.dataHash
        = ([Req.btc (buildTxUrl cfg a.transactionId)], Except.error VError.rateLimited) := by
      rw [validateBitcoinAnchor_single, hbtc]
      simp
    have hva : validateAnchors o cfg mh sl.anchors sl.dataHash
        = ([Req.btc (buildTxUrl cfg a.transactionId)], Except.error VError.rateLimited) := by
      rw [hanch]
      simp [validateAnchors, anchorsLoop, hb]
    simp [validateSeal, hva]

/-- C8 (witness): each conjunct of the amended theorem at a concrete
anchor under concrete explorer oracles. -/
theorem claim_C8_amended_witness :
    validateBitcoinAnchor oracleC8ok cfg0 idHash [("bitcoin", [("mainnet", anchorC8)])] "dh"
      = ([Req.btc (buildTxUrl cfg0 anchorC8.transactionId)],
         Except.ok ((("r" : String) == anchorC8.merkleRoot)
           && validateProof idHash anchorC8.proof "dh" anchorC8.merkleRoot))
    ∧ validateBitcoinAnchor oracleC8empty cfg0 idHash
        [("bitcoin", [("mainnet", anchorC8)])] "dh"
      = ([Req.btc (buildTxUrl cfg0 anchorC8.transactionId)],
         Except.error VError.merkleRootUndefined)
    ∧ validateBitcoinAnchor oracleC8 cfg0 idHash [("bitcoin", [("mainnet", anchorC8)])] "dh"
      = ([Req.btc (buildTxUrl cfg0 anchorC8.transactionId)],
         Except.error VError.merkleRootUndefined)
    ∧ validateBitcoinAnchor oracleC8lim cfg0 idHash [("bitcoin", [("mainnet", anchorC8)])] "dh"
      = ([Req.btc (buildTxUrl cfg0 anchorC8.transactionId)], Except.error VError.rateLimited)
    ∧ validateBitcoinAnchor oracleC8err cfg0 idHash [("bitcoin", [("mainnet", anchorC8)])] "dh"
      = ([Req.btc (buildTxUrl cfg0 anchorC8.transactionId)],
         Except.error (VError.network (some 404)))
    ∧ validateSeal oracleC8lim cfg0 idHash sealC8
      = ([Req.btc (buildTxUrl cfg0 anchorC8.transactionId)],
         Except.error VError.rateLimited) :=
  ⟨claim_C8_amended.1 oracleC8ok cfg0 idHash "dh" "mainnet" anchorC8
     [BtcOutput.mk (some "r")] "r" rfl rfl (by decide),
   claim_C8_amended.2.1 oracleC8empty cfg0 idHash "dh" "mainnet" anchorC8 [] rfl rfl,
   claim_C8_amended.2.2.1 oracleC8 cfg0 idHash "dh" "mainnet" anchorC8
     [BtcOutput.mk (some "")] rfl rfl,
   claim_C8_amended.2.2.2.1 oracleC8lim cfg0 idHash "dh" "mainnet" anchorC8 rfl,
   claim_C8_amended.2.2.2.2.1 oracleC8err cfg0 idHash "dh" "mainnet" anchorC8 (some 404)
     (by decide) rfl,
   claim_C8_amended.2.2.2.2.2 oracleC8lim cfg0 idHash sealC8 "mainnet" anchorC8 rfl rfl⟩

theorem forall2_map {α : Type} (R : α → α → Prop) (f : α → α) :
    ∀ l : List α, (∀ a ∈ l, R a (f a)) → List.Forall₂ R l (l.map f) := by
  intro l
  induction l with
  | nil => intro _; exact List.Forall₂.nil
  | cons a rest ih =>
    intro h
    exact List.Forall₂.cons (h a (List.mem_cons_self a rest))
      (ih fun b hb => h b (List.mem_cons_of_mem a hb))

theorem forall2_refl {α : Type} (R : α → α → Prop) :
    ∀ l : List α, (∀ a ∈ l, R a a) → List.Forall₂ R l l := by
  intro l
  induction l with
  | nil => intro _; exact List.Forall₂.nil
  | cons a rest ih =>
    intro h
    exact List.Forall₂.cons (h a (List.mem_cons_self a rest))
      (ih fun b hb => h b (List.mem_cons_of_mem a hb))

theorem resolveSigEntry_ok (o : Oracle) (e : ISignature) :
    sigWriteOk o e (resolveSigEntry o e) := by
  unfold resolveSigEntry sigWriteOk
  cases h : o.ethTx (addHexPfx e.transactionId) with
  | none => exact Or.inl rfl
  | some tx =>
    dsimp only
    cases hd : (tx.data == addHexPfx e.signature) with
    | false =>
      rw [if_neg (by simp)]
      exact Or.inl rfl
    | true =>
      rw [if_pos rfl]
      exact Or.inr ⟨rfl, tx, rfl, beq_iff_eq.mp hd⟩

theorem resolveInvEntry_ok (o : Oracle) (sv : IInviteAnchor) :
    invWriteOk o sv (resolveInvEntry o sv) := by
  unfold resolveInvEntry invWriteOk
  cases h : o.ethTx (addHexPfx sv.transactionId) with
  | none => exact Or.inl rfl
  | some tx =>
    dsimp only
    cases hd : (tx.data == addHexPfx sv.merkleRoot) with
    | false =>
      rw [if_neg (by simp)]
      exact Or.inl rfl
    | true =>
      rw [if_pos rfl]
      exact Or.inr ⟨rfl, tx, rfl, beq_iff_eq.mp hd⟩

/-- C9: updateSeal leaves the seal's id, dataHash, anchors and sealed
fields unchanged; both resolve passes preserve presence, protocol keys
and entry keys, and every entry is either unchanged or has only its
transactionStatus set, to CONFIRMED, and only when its transaction was
found with the matching expected payload: FAILED or PENDING is never
written. -/
theorem claim_C9 (o : Oracle) (sl : ISeal) :
    (updateSeal o sl).id = sl.id
    ∧ (updateSeal o sl).dataHash = sl.dataHash
    ∧ (updateSeal o sl).anchors = sl.anchors
    ∧ (updateSeal o sl).sealedAt = sl.sealedAt
    ∧ sigsResolvedOk o sl.signatures (updateSeal o sl).signatures
    ∧ invsResolvedOk o sl.signinvites (updateSeal o sl).signinvites := by
  refine ⟨rfl, rfl, rfl, rfl, ?_, ?_⟩
  · show sigsResolvedOk o sl.signatures (resolveSignatures o sl.signatures)
    cases hs : sl.signatures with
    | none => exact trivial
    | some m =>
      show List.Forall₂ _ m (m.map _)
      apply forall2_map
      intro pe _
      by_cases hp : (pe.1 == "ethereum") = true
      · rw [if_pos hp]
        refine ⟨rfl, ?_⟩
        apply forall2_map
        intro ke _
        exact ⟨rfl, resolveSigEntry_ok o ke.2⟩
      · rw [if_neg hp]
        refine ⟨rfl, ?_⟩
        exact forall2_refl _ pe.2 fun ke _ => ⟨rfl, Or.inl rfl⟩
  · show invsResolvedOk o sl.signinvites
      (match sl.signinvites with
       | some si => some (resolveSignInvites o si)
       | none => none)
    cases hsi : sl.signinvites with
    | none => exact trivial
    | some si =>
      show List.Forall₂ _ si.anchors (si.anchors.map _)
      apply forall2_map
      intro pe _
      by_cases hp : (pe.1 == "ethereum") = true
      · rw [if_pos hp]
        refine ⟨rfl, ?_⟩
        apply forall2_map
        intro ke _
        exact ⟨rfl, resolveInvEntry_ok o ke.2⟩
      · rw [if_neg hp]
        refine ⟨rfl, ?_⟩
        exact forall2_refl _ pe.2 fun ke _ => ⟨rfl, Or.inl rfl⟩

end CertiMint
